import Mathlib

/-!
# Snowflake identifier service (`id-generator-go/main.go`)

`main.go` reads `POD_NAME`, extracts a machine identifier from it, sets the
custom epoch, builds one node with `snowflake.NewNode` and serves
`node.Generate().Int64()` over HTTP.  `NewNode` and `Generate` are functions of
the imported package `github.com/bwmarrin/snowflake`; `main.go` fixes how they
are called (`NewNode` yields a node or an error, `Generate` yields a single
identifier and no error), and their bodies are set down here as that package
defines them.  Everything else is embedded from `main.go`.

Machine integers are `Int`/`Nat` with explicit reduction modulo `2 ^ 64`.
The wall clock is a list of successive millisecond readings; a call that
needs a reading when none is left does not return (`none`).
-/

namespace IdGenerator

/-! ## 64-bit two's-complement arithmetic -/

/-- Bit pattern (an unsigned number below `2 ^ 64`) of a signed integer. -/
def toBits (x : Int) : Nat := (x % 2 ^ 64).toNat

/-- Signed 64-bit reading of a bit pattern. -/
def ofBits (n : Nat) : Int :=
  if n % 2 ^ 64 < 2 ^ 63 then ((n % 2 ^ 64 : Nat) : Int) else ((n % 2 ^ 64 : Nat) : Int) - 2 ^ 64

/-- Left shift of a signed 64-bit integer, `x << k`, as a bit pattern. -/
def shl64 (x : Int) (k : Nat) : Nat := (toBits x <<< k) % 2 ^ 64

/-! ## Constants -/

/-- Width of the machine field (`machineBits`). -/
def machineBits : Nat := 10

/-- Width of the sequence field (`sequenceBits`). -/
def sequenceBits : Nat := 12

/-- Largest machine identifier of the 10-bit field. -/
def MAX_MACHINE_ID : Int := 2 ^ machineBits - 1

/-- Largest sequence number of the 12-bit field. -/
def MAX_SEQUENCE : Int := 2 ^ sequenceBits - 1

/-- Custom epoch in milliseconds, `snowflake.Epoch = 1739526270 * 1000` (main.go line 54). -/
def Epoch : Int := 1739526270 * 1000

/-! ## Generator -/

/-- Generator state (`snowflake.Node`): fixed machine identifier (`node`) and epoch, the
millisecond of the last identifier and the sequence (`step`) within it.  `lastTimestamp` is an
absolute millisecond reading; the package keeps `time = lastTimestamp - epoch`. -/
structure Generator where
  machineID : Int
  epoch : Int
  lastTimestamp : Int
  sequence : Int
  deriving DecidableEq, Repr

/-- Failure of construction. -/
inductive ConstructError where
  | InvalidMachineIDError
  deriving DecidableEq, Repr

/-- Construction `snowflake.NewNode(int64(machineID))` (main.go line 57) with the epoch set at
line 54: an error when the node number is below `0` or above `nodeMax = MAX_MACHINE_ID`;
otherwise a node whose `time` and `step` are zero, that is `lastTimestamp = epoch` and
`sequence = 0`. -/
def newGenerator (machineID epoch : Int) : Except ConstructError Generator :=
  if machineID < 0 ∨ machineID > MAX_MACHINE_ID then
    .error .InvalidMachineIDError
  else
    .ok { machineID := machineID, epoch := epoch, lastTimestamp := epoch, sequence := 0 }

/-- Packing `(now - epoch) << 22 | node << 12 | step` in signed 64-bit arithmetic; `now - epoch`
is the package's `time.Since(n.epoch).Milliseconds()`. -/
def compose (now epoch machineID sequence : Int) : Int :=
  ofBits (shl64 (now - epoch) (machineBits + sequenceBits)
    ||| shl64 machineID sequenceBits ||| toBits sequence)

/-- Busy-wait of `Generate`, `for now <= n.time { now = ... }`: readings are consumed while they
do not exceed `lastTimestamp`; the first that does is returned with the readings left after it,
`none` when the clock never advances. -/
def waitNextMillis (lastTimestamp : Int) : List Int → Option (Int × List Int)
  | [] => none
  | r :: rest =>
    if r ≤ lastTimestamp then waitNextMillis lastTimestamp rest else some (r, rest)

/-- End of `Generate`: record `now` (`n.time = now`), pack and return. -/
def emit (g : Generator) (now sequence : Int) (rest : List Int) :
    Option (Int × Generator × List Int) :=
  some (compose now g.epoch g.machineID sequence,
    { g with lastTimestamp := now, sequence := sequence }, rest)

/-- Call `node.Generate()` (main.go line 94).  A reading equal to the recorded millisecond
advances the sequence, `(n.step + 1) & n.stepMask`, and waits for the next millisecond when it
wraps to `0`; every other reading, earlier ones included, resets the sequence to `0`.  There is
no error result.  The value is the identifier, the generator after the call and the unread clock
readings; `none` when the call never returns. -/
def generate (g : Generator) : List Int → Option (Int × Generator × List Int)
  | [] => none
  | now :: rest =>
    if now = g.lastTimestamp then
      if (g.sequence + 1) % (MAX_SEQUENCE + 1) = 0 then
        match waitNextMillis g.lastTimestamp rest with
        | none => none
        | some (now', rest') => emit g now' 0 rest'
      else
        emit g now ((g.sequence + 1) % (MAX_SEQUENCE + 1)) rest
    else
      emit g now 0 rest

/-- Identifiers of `n` sequential calls of `Generate` against one clock, in call order; the run
ends early when a call does not return. -/
def generateN : Nat → Generator → List Int → List Int
  | 0, _, _ => []
  | n + 1, g, clock =>
    match generate g clock with
    | none => []
    | some (id, g', rest) => id :: generateN n g' rest

/-! ## Reversing the bit packing -/

/-- Machine field `(id >> 12) & 1023`. -/
def machineField (id : Int) : Nat := (toBits id >>> sequenceBits) &&& (2 ^ machineBits - 1)

/-- Sequence field `id & 4095`. -/
def sequenceField (id : Int) : Nat := toBits id &&& (2 ^ sequenceBits - 1)

/-- Timestamp field `id >> 22` (arithmetic shift of the signed value). -/
def timestampField (id : Int) : Int := id >>> (machineBits + sequenceBits)

/-- Well-formed generator state: both fields within their bit widths. -/
def Generator.WF (g : Generator) : Prop :=
  0 ≤ g.machineID ∧ g.machineID ≤ MAX_MACHINE_ID ∧ 0 ≤ g.sequence ∧ g.sequence ≤ MAX_SEQUENCE

/-- The packed value as an unbounded integer: `(now - epoch) * 2 ^ 22 + machineID * 2 ^ 12 + sequence`. -/
def Generator.key (g : Generator) : Int :=
  (g.lastTimestamp - g.epoch) * 2 ^ 22 + g.machineID * 2 ^ 12 + g.sequence

/-- Every reading of the clock lies in the 41-bit window that starts at the epoch. -/
def InRange (epoch : Int) (clock : List Int) : Prop :=
  ∀ r ∈ clock, 0 ≤ r - epoch ∧ r - epoch < 2 ^ 41

instance (g : Generator) : Decidable g.WF := by
  unfold Generator.WF
  infer_instance

instance (epoch : Int) (clock : List Int) : Decidable (InRange epoch clock) := by
  unfold InRange
  infer_instance

/-! ## Startup (`main`, lines 27 to 60) -/

/-- Character class `\d` of the regular expression: the ASCII digits. -/
def isDigit (c : Char) : Bool := decide (48 ≤ c.toNat ∧ c.toNat ≤ 57)

/-- Text of the leftmost match of `\d+`, as `re.FindString` returns it: the greedy `+` takes
every digit that follows; the empty text when nothing matches. -/
def findString (s : List Char) : List Char :=
  (s.dropWhile fun c => !isDigit c).takeWhile isDigit

/-- Accumulation of decimal digits, most significant first (`n = n*10 + (ch - 48)`). -/
def digitsValue (s : List Char) : Nat :=
  s.foldl (fun n ch => n * 10 + (ch.toNat - 48)) 0

/-- Result of `strconv.Atoi` for a 64-bit `int`: an optional sign followed by decimal digits;
`none` stands for a syntax or range error. -/
def atoi (s : List Char) : Option Int :=
  let body := if s.head? = some '+' ∨ s.head? = some '-' then s.tail else s
  if body = [] ∨ body.all isDigit = false then none
  else
    let v : Int := if s.head? = some '-' then -(digitsValue body : Int) else (digitsValue body : Int)
    if v < -2 ^ 63 ∨ 2 ^ 63 - 1 < v then none else some v

/-- Ways in which startup aborts (`log.Fatalf` at lines 43, 49 and 59). -/
inductive StartupError where
  | noNumericPart
  | invalidMachineID
  | nodeCreation (e : ConstructError)
  deriving DecidableEq, Repr

/-- Startup of `main` up to the construction of the node: the generator that will serve
`/generate-id`, or the reason the process exits. -/
def main (podNameEnv : String) : Except StartupError Generator :=
  let podName := if podNameEnv = "" then "id-generator-1023" else podNameEnv
  let found := findString podName.toList
  if found = [] then .error .noNumericPart
  else
    match atoi found with
    | none => .error .invalidMachineID
    | some machineID =>
      match newGenerator machineID Epoch with
      | .error e => .error (.nodeCreation e)
      | .ok node => .ok node

/-- Reading of the claim: `run` is the leftmost maximal run of decimal digits of `s`. -/
def IsLeftmostDigitRun (s run : List Char) : Prop :=
  ∃ pre post, s = pre ++ run ++ post ∧ (∀ c ∈ pre, isDigit c = false) ∧ run ≠ [] ∧
    (∀ c ∈ run, isDigit c = true) ∧ (∀ c, post.head? = some c → isDigit c = false)

/-- Reading of the claim: a run of digits read as a decimal number. -/
def decimalValue (run : List Char) : Nat :=
  Nat.ofDigits 10 (run.reverse.map fun c => c.toNat - 48)

/-! ## Bit-level lemmas -/

theorem toBits_of_nonneg {x : Int} (h0 : 0 ≤ x) (h1 : x < 2 ^ 64) : toBits x = x.toNat := by
  unfold toBits
  rw [Int.emod_eq_of_lt h0 h1]

theorem toBits_lt (x : Int) : toBits x < 2 ^ 64 := by
  unfold toBits
  have h := Int.emod_lt_of_pos x (show (0 : Int) < 2 ^ 64 by norm_num)
  have h0 := Int.emod_nonneg x (show (2 ^ 64 : Int) ≠ 0 by norm_num)
  omega

theorem toBits_ofBits {n : Nat} (h : n < 2 ^ 64) : toBits (ofBits n) = n := by
  unfold toBits ofBits
  rw [Nat.mod_eq_of_lt h]
  split <;> omega

/-- The three fields do not overlap, so the bitwise OR of step 6 is a sum. -/
theorem pattern_eq (t : Int) {m s : Int} (hm0 : 0 ≤ m) (hm1 : m ≤ 1023) (hs0 : 0 ≤ s)
    (hs1 : s ≤ 4095) :
    shl64 t 22 ||| shl64 m 12 ||| toBits s
      = 2 ^ 22 * (toBits t % 2 ^ 42) + (2 ^ 12 * m.toNat + s.toNat) := by
  have e1 : toBits s = s.toNat := toBits_of_nonneg hs0 (by omega)
  have e2 : shl64 m 12 = 2 ^ 12 * m.toNat := by
    unfold shl64
    rw [toBits_of_nonneg hm0 (by omega), Nat.shiftLeft_eq, Nat.mod_eq_of_lt (by omega)]
    ring
  have e3 : shl64 t 22 = 2 ^ 22 * (toBits t % 2 ^ 42) := by
    unfold shl64
    rw [Nat.shiftLeft_eq, Nat.mul_comm, show (2 : Nat) ^ 64 = 2 ^ 22 * 2 ^ 42 by norm_num,
      Nat.mul_mod_mul_left]
  have hs : s.toNat < 2 ^ 12 := by omega
  have hms : 2 ^ 12 * m.toNat + s.toNat < 2 ^ 22 := by omega
  rw [e1, e2, e3, Nat.lor_assoc, ← Nat.mul_add_lt_is_or hs, ← Nat.mul_add_lt_is_or hms]

/-- Machine and sequence fields of a composed value, for every timestamp. -/
theorem compose_fields (now e : Int) {m s : Int} (hm0 : 0 ≤ m) (hm1 : m ≤ 1023) (hs0 : 0 ≤ s)
    (hs1 : s ≤ 4095) :
    machineField (compose now e m s) = m.toNat ∧ sequenceField (compose now e m s) = s.toNat := by
  have hp := pattern_eq (now - e) hm0 hm1 hs0 hs1
  have hT : toBits (now - e) % 2 ^ 42 < 2 ^ 42 := Nat.mod_lt _ (by norm_num)
  unfold machineField sequenceField compose
  simp only [machineBits, sequenceBits, Nat.reduceAdd]
  rw [hp, toBits_ofBits (by omega), Nat.and_pow_two_sub_one_eq_mod,
    Nat.and_pow_two_sub_one_eq_mod, Nat.shiftRight_eq_div_pow]
  constructor <;> omega

/-- Within the 41-bit window the composed value is the plain sum of the shifted fields. -/
theorem compose_inRange {now e m s : Int} (ht0 : 0 ≤ now - e) (ht1 : now - e < 2 ^ 41)
    (hm0 : 0 ≤ m) (hm1 : m ≤ 1023) (hs0 : 0 ≤ s) (hs1 : s ≤ 4095) :
    compose now e m s = (now - e) * 2 ^ 22 + m * 2 ^ 12 + s := by
  have hp := pattern_eq (now - e) hm0 hm1 hs0 hs1
  have hb : toBits (now - e) = (now - e).toNat := toBits_of_nonneg ht0 (by omega)
  unfold compose
  simp only [machineBits, sequenceBits, Nat.reduceAdd]
  rw [hp, hb, Nat.mod_eq_of_lt (by omega)]
  unfold ofBits
  rw [Nat.mod_eq_of_lt (by omega), if_pos (by omega)]
  push_cast
  omega

theorem timestampField_eq {t r : Int} (hr0 : 0 ≤ r) (hr1 : r < 2 ^ 22) :
    timestampField (t * 2 ^ 22 + r) = t := by
  unfold timestampField
  simp only [machineBits, sequenceBits, Nat.reduceAdd]
  rw [Int.shiftRight_eq_div_pow]
  norm_num
  omega

/-! ## One call -/

theorem MAX_SEQUENCE_eq : MAX_SEQUENCE = 4095 := by norm_num [MAX_SEQUENCE, sequenceBits]

theorem MAX_MACHINE_ID_eq : MAX_MACHINE_ID = 1023 := by norm_num [MAX_MACHINE_ID, machineBits]

/-- A finished wait skipped readings that had not advanced and stopped at the first that had. -/
theorem waitNextMillis_some {last r : Int} {l rest : List Int}
    (h : waitNextMillis last l = some (r, rest)) :
    ∃ skipped, l = skipped ++ r :: rest ∧ (∀ x ∈ skipped, x ≤ last) ∧ last < r := by
  induction l with
  | nil => simp [waitNextMillis] at h
  | cons a t ih =>
    rw [waitNextMillis] at h
    split at h
    · rename_i ha
      obtain ⟨sk, e, hsk, hr⟩ := ih h
      refine ⟨a :: sk, by simp [e], ?_, hr⟩
      intro x hx
      rcases List.mem_cons.mp hx with rfl | hx
      · exact ha
      · exact hsk x hx
    · simp only [Option.some.injEq, Prod.mk.injEq] at h
      obtain ⟨rfl, rfl⟩ := h
      exact ⟨[], by simp, by simp, by omega⟩

/-- The wait ends exactly when some later reading exceeds `lastTimestamp`. -/
theorem waitNextMillis_isSome (last : Int) (l : List Int) :
    (waitNextMillis last l).isSome = true ↔ ∃ r ∈ l, last < r := by
  induction l with
  | nil => simp [waitNextMillis]
  | cons a t ih =>
    rw [waitNextMillis]
    split
    · rw [ih]
      simp only [List.mem_cons, exists_eq_or_imp]
      constructor
      · intro h; exact Or.inr h
      · rintro (h | h)
        · omega
        · exact h
    · simp only [Option.isSome_some, List.mem_cons, exists_eq_or_imp, true_iff]
      left; omega

/-- Shape of a call that returns: the identifier is packed from a reading `now` of the clock,
which is recorded, and the unread readings are those after `now`. -/
theorem generate_ok {g g' : Generator} {clock rest : List Int} {id : Int}
    (h : generate g clock = some (id, g', rest)) :
    ∃ pre now seq, clock = pre ++ now :: rest ∧
      id = compose now g.epoch g.machineID seq ∧
      g' = { g with lastTimestamp := now, sequence := seq } ∧
      ((pre = [] ∧ now = g.lastTimestamp ∧ seq = (g.sequence + 1) % (MAX_SEQUENCE + 1) ∧ seq ≠ 0) ∨
       (pre = [] ∧ now ≠ g.lastTimestamp ∧ seq = 0) ∨
       ((∃ skipped, pre = g.lastTimestamp :: skipped ∧ ∀ x ∈ skipped, x ≤ g.lastTimestamp) ∧
          g.lastTimestamp < now ∧ seq = 0 ∧ (g.sequence + 1) % (MAX_SEQUENCE + 1) = 0)) := by
  cases clock with
  | nil => simp [generate] at h
  | cons a t =>
    rw [generate] at h
    split at h
    · rename_i hnow
      split at h
      · rename_i hov
        split at h
        · simp at h
        · rename_i now' rest' hw
          simp only [emit, Option.some.injEq, Prod.mk.injEq] at h
          obtain ⟨h1, h2, h3⟩ := h
          obtain ⟨sk, e, hsk, hr⟩ := waitNextMillis_some hw
          subst h3
          refine ⟨a :: sk, now', 0, by rw [e]; rfl, h1.symm, h2.symm,
            Or.inr (Or.inr ⟨⟨sk, by rw [hnow], hsk⟩, hr, rfl, hov⟩)⟩
      · rename_i hov
        simp only [emit, Option.some.injEq, Prod.mk.injEq] at h
        obtain ⟨h1, h2, h3⟩ := h
        subst h3
        exact ⟨[], a, _, rfl, h1.symm, h2.symm, Or.inl ⟨rfl, hnow, rfl, hov⟩⟩
    · rename_i hnow
      simp only [emit, Option.some.injEq, Prod.mk.injEq] at h
      obtain ⟨h1, h2, h3⟩ := h
      subst h3
      exact ⟨[], a, 0, rfl, h1.symm, h2.symm, Or.inr (Or.inl ⟨rfl, hnow, rfl⟩)⟩

/-- A returned identifier is packed from the recorded timestamp and the updated counter, and the
state stays well formed. -/
theorem generate_ok_wf {g g' : Generator} {clock rest : List Int} {id : Int} (hwf : g.WF)
    (h : generate g clock = some (id, g', rest)) :
    g'.WF ∧ g'.epoch = g.epoch ∧ g'.machineID = g.machineID ∧
      id = compose g'.lastTimestamp g.epoch g.machineID g'.sequence ∧
      g'.lastTimestamp ∈ clock := by
  obtain ⟨pre, now, seq, hcl, hid, hg, hc⟩ := generate_ok h
  obtain ⟨w1, w2, w3, w4⟩ := hwf
  rw [MAX_SEQUENCE_eq] at w4 hc
  subst hg
  refine ⟨⟨w1, w2, ?_, ?_⟩, rfl, rfl, hid, by rw [hcl]; simp⟩ <;>
    rcases hc with ⟨-, -, h2, -⟩ | ⟨-, -, h2⟩ | ⟨-, -, h2, -⟩ <;>
    (try rw [MAX_SEQUENCE_eq]) <;> dsimp only <;> omega

/-- On a clock that never decreases and stays inside the 41-bit window, the returned identifier
is the key of the new state, the unread readings are no earlier than the recorded one, and the
key grows strictly when the state was not ahead of the clock. -/
theorem generate_ok_inRange {g g' : Generator} {clock rest : List Int} {id : Int} (hwf : g.WF)
    (hmono : List.Pairwise (· ≤ ·) clock) (hr : InRange g.epoch clock)
    (h : generate g clock = some (id, g', rest)) :
    List.Pairwise (· ≤ ·) rest ∧ InRange g'.epoch rest ∧
      (∀ r ∈ rest, g'.lastTimestamp ≤ r) ∧ id = g'.key ∧
      ((∀ r ∈ clock, g.lastTimestamp ≤ r) → g.key < g'.key) := by
  obtain ⟨hwf', he, hm, hid, hmem⟩ := generate_ok_wf hwf h
  obtain ⟨pre, now, seq, hcl, -, hg, hc⟩ := generate_ok h
  have hrange := hr _ hmem
  obtain ⟨w1, w2, w3, w4⟩ := hwf
  obtain ⟨v1, v2, v3, v4⟩ := hwf'
  rw [MAX_SEQUENCE_eq] at w4 v4 hc
  rw [MAX_MACHINE_ID_eq] at w2 v2
  have hkey : id = g'.key := by
    rw [hid, compose_inRange hrange.1 hrange.2 w1 w2 v3 v4]
    simp only [Generator.key, he, hm]
  have hsplit := hmono
  rw [hcl, List.pairwise_append] at hsplit
  obtain ⟨-, htail, -⟩ := hsplit
  rw [List.pairwise_cons] at htail
  refine ⟨htail.2, ?_, ?_, hkey, ?_⟩
  · intro r hr'
    rw [he]
    exact hr r (by rw [hcl]; simp [hr'])
  · intro r hr'
    subst hg
    exact htail.1 r hr'
  · intro hahead
    have hnow : g.lastTimestamp ≤ now := hahead now (by rw [hcl]; simp)
    subst hg
    simp only [Generator.key]
    rcases hc with ⟨-, h1, h2, h3⟩ | ⟨-, h1, h2⟩ | ⟨-, h1, h2, -⟩ <;> omega

/-! ## Runs of calls -/

/-- Identifiers of a run increase strictly, all above the key of the starting state, when the
clock never decreases, stays inside the 41-bit window and is not behind the state. -/
theorem generateN_increasing_from (n : Nat) :
    ∀ (g : Generator) (clock : List Int), g.WF → List.Pairwise (· ≤ ·) clock →
      InRange g.epoch clock → (∀ r ∈ clock, g.lastTimestamp ≤ r) →
      (∀ id ∈ generateN n g clock, g.key < id) ∧ (generateN n g clock).Pairwise (· < ·) := by
  induction n with
  | zero =>
    intro g clock _ _ _ _
    simp [generateN]
  | succ n ih =>
    intro g clock hwf hmono hr hahead
    rw [generateN]
    split
    · simp
    · rename_i id g' rest hgen
      obtain ⟨hwf', -⟩ := generate_ok_wf hwf hgen
      obtain ⟨hmono', hr', hahead', hid, hlt⟩ := generate_ok_inRange hwf hmono hr hgen
      obtain ⟨ih1, ih2⟩ := ih g' rest hwf' hmono' hr' hahead'
      have hlt' := hlt hahead
      constructor
      · intro x hx
        rcases List.mem_cons.mp hx with rfl | hx
        · rw [hid]; exact hlt'
        · exact lt_trans hlt' (ih1 x hx)
      · refine List.Pairwise.cons ?_ ih2
        intro x hx
        rw [hid]
        exact ih1 x hx

/-- Identifiers of a run increase strictly when the clock never decreases and stays inside the
41-bit window, from every well-formed state. -/
theorem generateN_increasing (n : Nat) (g : Generator) (clock : List Int) (hwf : g.WF)
    (hmono : List.Pairwise (· ≤ ·) clock) (hr : InRange g.epoch clock) :
    (generateN n g clock).Pairwise (· < ·) := by
  cases n with
  | zero => simp [generateN]
  | succ n =>
    rw [generateN]
    split
    · simp
    · rename_i id g' rest hgen
      obtain ⟨hwf', -⟩ := generate_ok_wf hwf hgen
      obtain ⟨hmono', hr', hahead', hid, -⟩ := generate_ok_inRange hwf hmono hr hgen
      obtain ⟨ih1, ih2⟩ := generateN_increasing_from n g' rest hwf' hmono' hr' hahead'
      refine List.Pairwise.cons ?_ ih2
      intro x hx
      rw [hid]
      exact ih1 x hx

/-- Every identifier of a run carries the machine identifier of its generator in bits 12 to 21,
whatever the clock reads. -/
theorem generateN_machineField (n : Nat) :
    ∀ (g : Generator) (clock : List Int), g.WF →
      ∀ id ∈ generateN n g clock, machineField id = g.machineID.toNat := by
  induction n with
  | zero =>
    intro g clock _
    simp [generateN]
  | succ n ih =>
    intro g clock hwf
    rw [generateN]
    split
    · simp
    · rename_i v g' rest hgen
      obtain ⟨hwf', -, hm, hid, -⟩ := generate_ok_wf hwf hgen
      have hw := hwf
      obtain ⟨w1, w2, -, -⟩ := hw
      have hw' := hwf'
      obtain ⟨-, -, v3, v4⟩ := hw'
      rw [MAX_SEQUENCE_eq] at v4
      rw [MAX_MACHINE_ID_eq] at w2
      intro x hx
      rcases List.mem_cons.mp hx with rfl | hx
      · rw [hid]
        exact (compose_fields _ _ w1 w2 v3 v4).1
      · rw [← hm]
        exact ih g' rest hwf' x hx

theorem newGenerator_ok {m e : Int} {g : Generator} (h : newGenerator m e = .ok g) :
    g = ⟨m, e, e, 0⟩ ∧ 0 ≤ m ∧ m ≤ 1023 := by
  unfold newGenerator at h
  rw [MAX_MACHINE_ID_eq] at h
  split at h
  · simp at h
  · simp only [Except.ok.injEq] at h
    exact ⟨h.symm, by omega, by omega⟩

theorem newGenerator_wf {m e : Int} {g : Generator} (h : newGenerator m e = .ok g) : g.WF := by
  obtain ⟨rfl, h0, h1⟩ := newGenerator_ok h
  refine ⟨h0, by rw [MAX_MACHINE_ID_eq]; exact h1, le_refl _, ?_⟩
  rw [MAX_SEQUENCE_eq]
  norm_num

/-! ## Startup lemmas -/

theorem findString_of_run {s run : List Char} (h : IsLeftmostDigitRun s run) :
    findString s = run := by
  obtain ⟨pre, post, rfl, hpre, hne, hrun, hpost⟩ := h
  unfold findString
  have h1 : ∀ (l : List Char), (∀ c ∈ l, isDigit c = false) → ∀ t : List Char,
      (l ++ t).dropWhile (fun c => !isDigit c) = t.dropWhile (fun c => !isDigit c) := by
    intro l hl t
    exact List.dropWhile_append_of_pos (fun a ha => by simp [hl a ha])
  rw [List.append_assoc, h1 pre hpre]
  cases run with
  | nil => exact absurd rfl hne
  | cons a t =>
    have ha : isDigit a = true := hrun a (by simp)
    rw [List.cons_append, List.dropWhile_cons_of_neg (by simp [ha]), ← List.cons_append,
      List.takeWhile_append_of_pos hrun]
    cases post with
    | nil => simp
    | cons b u =>
      have hb : isDigit b = false := hpost b (by simp)
      rw [List.takeWhile_cons_of_neg (by simp [hb]), List.append_nil]

theorem findString_run {s : List Char} (h : findString s ≠ []) :
    IsLeftmostDigitRun s (findString s) := by
  unfold findString at h ⊢
  refine ⟨s.takeWhile (fun c => !isDigit c),
    (s.dropWhile (fun c => !isDigit c)).dropWhile isDigit, ?_, ?_, h, ?_, ?_⟩
  · rw [List.append_assoc, List.takeWhile_append_dropWhile, List.takeWhile_append_dropWhile]
  · intro c hc
    have := List.all_takeWhile (l := s) (p := fun c => !isDigit c)
    rw [List.all_eq_true] at this
    simpa using this c hc
  · intro c hc
    have := List.all_takeWhile (l := s.dropWhile (fun c => !isDigit c)) (p := isDigit)
    rw [List.all_eq_true] at this
    exact this c hc
  · intro c hc
    have := List.head?_dropWhile_not isDigit (s.dropWhile (fun c => !isDigit c))
    rw [hc] at this
    simpa using this

theorem digitsValue_eq_decimalValue (run : List Char) : digitsValue run = decimalValue run := by
  unfold digitsValue decimalValue
  rw [Nat.ofDigits_eq_foldr, List.foldr_map, List.foldr_reverse]
  congr 1
  funext n ch
  simp [Nat.mul_comm, Nat.add_comm]

theorem atoi_digits {run : List Char} (hne : run ≠ []) (hd : ∀ c ∈ run, isDigit c = true) :
    atoi run = if (digitsValue run : Int) ≤ 2 ^ 63 - 1 then some (digitsValue run : Int) else none := by
  cases run with
  | nil => exact absurd rfl hne
  | cons a t =>
    have ha : isDigit a = true := hd a (by simp)
    have hplus : a ≠ '+' := by
      rintro rfl
      revert ha; decide
    have hminus : a ≠ '-' := by
      rintro rfl
      revert ha; decide
    have hall : (a :: t).all isDigit = true := List.all_eq_true.mpr hd
    unfold atoi
    simp only [List.head?_cons, Option.some.injEq, hplus, hminus, or_self, if_false, hall,
      reduceCtorEq, Bool.true_eq_false]
    have h0 : (0 : Int) ≤ (digitsValue (a :: t) : Int) := Int.ofNat_nonneg _
    split_ifs <;> first | rfl | omega

/-! ## The claims -/

/-- C1, as stated, fails in two ways.  When the clock steps back (`epoch + 10`, `epoch + 6`,
`epoch + 10`), machine 5 returns `41963520` twice, since an earlier reading is accepted and
restarts the sequence.  When two readings are `2 ^ 42` apart, the shifted timestamps agree
modulo `2 ^ 64` and machine 0 returns `4194304` twice on a clock that never decreases. -/
theorem C1_counterexample :
    ∃ g5 g0, newGenerator 5 Epoch = .ok g5 ∧ newGenerator 0 Epoch = .ok g0 ∧
      generateN 3 g5 [Epoch + 10, Epoch + 6, Epoch + 10] = [41963520, 25186304, 41963520] ∧
      ¬ (generateN 3 g5 [Epoch + 10, Epoch + 6, Epoch + 10]).Nodup ∧
      generateN 2 g0 [Epoch + 1, Epoch + 1 + 2 ^ 42] = [4194304, 4194304] ∧
      ¬ (generateN 2 g0 [Epoch + 1, Epoch + 1 + 2 ^ 42]).Nodup :=
  ⟨⟨5, Epoch, Epoch, 0⟩, ⟨0, Epoch, Epoch, 0⟩, rfl, rfl, by decide, by decide, by decide,
    by decide⟩

/-- C1, amended: for every well-formed generator and every clock that never decreases and whose
readings lie in the 41-bit window `[epoch, epoch + 2 ^ 41)`, the identifiers returned by any
number of calls are pairwise distinct. -/
theorem C1_unique_in_window (n : Nat) (g : Generator) (clock : List Int) (hwf : g.WF)
    (hmono : List.Pairwise (· ≤ ·) clock) (hr : InRange g.epoch clock) :
    (generateN n g clock).Nodup :=
  (generateN_increasing n g clock hwf hmono hr).imp (fun h => ne_of_lt h)

/-- C1, amended, at machine 5 with three readings of which two fall in the same millisecond. -/
theorem C1_unique_in_window_witness :
    (generateN 3 ⟨5, Epoch, Epoch, 0⟩ [Epoch, Epoch, Epoch + 1]).Nodup :=
  C1_unique_in_window 3 ⟨5, Epoch, Epoch, 0⟩ [Epoch, Epoch, Epoch + 1] (by decide) (by decide)
    (by decide)

/-- C2: two generators built with distinct machine identifiers (both accepted, hence in
`[0, 1023]`) on the same epoch never return a common identifier, for clocks whose
epoch-relative readings fit in 41 bits; the sequence values of such runs stay in `[0, 4095]`. -/
theorem C2_distinct_across_machines (a b e : Int) (ga gb : Generator)
    (ha : newGenerator a e = .ok ga) (hb : newGenerator b e = .ok gb) (hab : a ≠ b)
    (n1 n2 : Nat) (c1 c2 : List Int) (_hr1 : InRange e c1) (_hr2 : InRange e c2) :
    ∀ x ∈ generateN n1 ga c1, ∀ y ∈ generateN n2 gb c2, x ≠ y := by
  intro x hx y hy hxy
  have h1 := generateN_machineField n1 ga c1 (newGenerator_wf ha) x hx
  have h2 := generateN_machineField n2 gb c2 (newGenerator_wf hb) y hy
  obtain ⟨rfl, a0, -⟩ := newGenerator_ok ha
  obtain ⟨rfl, b0, -⟩ := newGenerator_ok hb
  rw [hxy, h2] at h1
  simp only at h1
  omega

/-- C2 at machines 5 and 6, each called twice within one millisecond. -/
theorem C2_distinct_across_machines_witness :
    (20481 : Int) ∈ generateN 2 ⟨5, Epoch, Epoch, 0⟩ [Epoch, Epoch] ∧
      (24577 : Int) ∈ generateN 2 ⟨6, Epoch, Epoch, 0⟩ [Epoch, Epoch] ∧
      (20481 : Int) ≠ 24577 :=
  ⟨by decide, by decide,
    C2_distinct_across_machines 5 6 Epoch ⟨5, Epoch, Epoch, 0⟩ ⟨6, Epoch, Epoch, 0⟩ rfl rfl (by decide)
      2 2 [Epoch, Epoch] [Epoch, Epoch] (by decide) (by decide) 20481 (by decide) 24577
      (by decide)⟩

/-- C3, as stated, fails in its example: a freshly constructed node has `time = 0`, that is
`lastTimestamp = epoch`, so the first call at `now = epoch` counts as a repeat of that
millisecond; machine 5 returns `20481` and then `20482`, not `20480` and `20481`. -/
theorem C3_counterexample :
    ∃ g, newGenerator 5 Epoch = .ok g ∧
      generateN 2 g [Epoch, Epoch] = [20481, 20482] ∧
      generateN 2 g [Epoch, Epoch] ≠ [20480, 20481] :=
  ⟨⟨5, Epoch, Epoch, 0⟩, rfl, by decide, by decide⟩

/-- C3, amended: every returned value is `((now - epoch) << 22) | (machineID << 12) | sequence`
for the clock reading `now` recorded as `lastTimestamp` and the counter left by the call, which
inside the 41-bit window is the number `(now - epoch) * 2 ^ 22 + machineID * 2 ^ 12 + sequence`;
the epoch set by `main` is `1739526270000`; machine 5 at `now = epoch` returns `20481` on the first
call of a fresh generator and `20482` on the second. -/
theorem C3_generate_value :
    (∀ (g g' : Generator) (clock rest : List Int) (id : Int),
        generate g clock = some (id, g', rest) →
          id = compose g'.lastTimestamp g.epoch g.machineID g'.sequence ∧
            g'.lastTimestamp ∈ clock ∧ g'.epoch = g.epoch ∧ g'.machineID = g.machineID ∧
            (g.WF → 0 ≤ g'.lastTimestamp - g.epoch → g'.lastTimestamp - g.epoch < 2 ^ 41 →
              id = (g'.lastTimestamp - g.epoch) * 2 ^ 22 + g.machineID * 2 ^ 12
                + g'.sequence)) ∧
      Epoch = 1739526270000 ∧
      (∃ g, newGenerator 5 Epoch = .ok g ∧ generateN 2 g [Epoch, Epoch] = [20481, 20482]) := by
  refine ⟨?_, by decide, ⟨5, Epoch, Epoch, 0⟩, rfl, by decide⟩
  intro g g' clock rest id h
  obtain ⟨pre, now, seq, hcl, hid, hg, -⟩ := generate_ok h
  refine ⟨by subst hg; exact hid, by subst hg; rw [hcl]; simp, by subst hg; rfl,
    by subst hg; rfl, ?_⟩
  intro hwf h0 h1
  obtain ⟨hwf', -, -, hid', -⟩ := generate_ok_wf hwf h
  obtain ⟨w1, w2, -, -⟩ := hwf
  obtain ⟨-, -, v3, v4⟩ := hwf'
  rw [MAX_SEQUENCE_eq] at v4
  rw [MAX_MACHINE_ID_eq] at w2
  rw [hid', compose_inRange h0 h1 w1 w2 v3 v4]

/-- C3, amended, at machine 5, first call of a fresh generator at `now = epoch`. -/
theorem C3_generate_value_witness :
    generate ⟨5, Epoch, Epoch, 0⟩ [Epoch] = some (20481, ⟨5, Epoch, Epoch, 1⟩, []) ∧
      (20481 : Int) = compose Epoch Epoch 5 1 :=
  ⟨by rfl, (C3_generate_value.1 ⟨5, Epoch, Epoch, 0⟩ ⟨5, Epoch, Epoch, 1⟩ [Epoch] [] 20481
    (by rfl)).1⟩

/-- C4, as stated, fails: the clock readings `epoch + 2 ^ 41 - 1` and `epoch + 2 ^ 41` never
decrease, yet the second identifier has bit 63 set and is smaller than the first. -/
theorem C4_counterexample :
    ∃ g, newGenerator 0 Epoch = .ok g ∧
      List.Pairwise (· ≤ ·) [Epoch + 2 ^ 41 - 1, Epoch + 2 ^ 41] ∧
      generateN 2 g [Epoch + 2 ^ 41 - 1, Epoch + 2 ^ 41]
        = [9223372036850581504, -9223372036854775808] ∧
      ¬ List.Pairwise (· ≤ ·) (generateN 2 g [Epoch + 2 ^ 41 - 1, Epoch + 2 ^ 41]) :=
  ⟨⟨0, Epoch, Epoch, 0⟩, rfl, by decide, by decide, by decide⟩

/-- C4, amended: for every well-formed generator and every clock that never decreases and whose
readings lie in the 41-bit window `[epoch, epoch + 2 ^ 41)`, the identifiers returned by
sequential calls are non-decreasing (each is at most every later one). -/
theorem C4_monotone_in_window (n : Nat) (g : Generator) (clock : List Int) (hwf : g.WF)
    (hmono : List.Pairwise (· ≤ ·) clock) (hr : InRange g.epoch clock) :
    List.Pairwise (· ≤ ·) (generateN n g clock) :=
  (generateN_increasing n g clock hwf hmono hr).imp (fun h => le_of_lt h)

/-- C4, amended, on a clock that stalls and then advances. -/
theorem C4_monotone_in_window_witness :
    List.Pairwise (· ≤ ·) (generateN 3 ⟨5, Epoch, Epoch, 0⟩ [Epoch, Epoch, Epoch + 7]) :=
  C4_monotone_in_window 3 ⟨5, Epoch, Epoch, 0⟩ [Epoch, Epoch, Epoch + 7] (by decide) (by decide)
    (by decide)

/-- C5, as stated, fails: `Generate` has no error result.  With `lastTimestamp = epoch + 10`,
`sequence = 3` and the clock reading `epoch + 6`, machine 5 returns the identifier `25186304`
and the generator is rewound to `lastTimestamp = epoch + 6`, `sequence = 0`. -/
theorem C5_counterexample :
    Epoch + 6 < (⟨5, Epoch, Epoch + 10, 3⟩ : Generator).lastTimestamp ∧
      generate ⟨5, Epoch, Epoch + 10, 3⟩ [Epoch + 6]
        = some (25186304, ⟨5, Epoch, Epoch + 6, 0⟩, []) ∧
      (⟨5, Epoch, Epoch + 6, 0⟩ : Generator).lastTimestamp
        ≠ (⟨5, Epoch, Epoch + 10, 3⟩ : Generator).lastTimestamp ∧
      (⟨5, Epoch, Epoch + 6, 0⟩ : Generator).sequence
        ≠ (⟨5, Epoch, Epoch + 10, 3⟩ : Generator).sequence :=
  ⟨by decide, by rfl, by decide, by decide⟩

/-- C5, amended: when the clock reads `now < lastTimestamp`, `generate()` does not fail; it
returns the identifier packed from `now` with sequence `0`, and the state after the call has
`lastTimestamp = now` and `sequence = 0`. -/
theorem C5_clock_regression (g : Generator) (now : Int) (rest : List Int)
    (h : now < g.lastTimestamp) :
    generate g (now :: rest)
      = some (compose now g.epoch g.machineID 0,
          { g with lastTimestamp := now, sequence := 0 }, rest) := by
  rw [generate, if_neg (by omega)]
  rfl

/-- C5, amended, with the clock four milliseconds behind. -/
theorem C5_clock_regression_witness :
    generate ⟨5, Epoch, Epoch + 10, 3⟩ [Epoch + 6]
      = some (compose (Epoch + 6) Epoch 5 0, ⟨5, Epoch, Epoch + 6, 0⟩, []) :=
  C5_clock_regression ⟨5, Epoch, Epoch + 10, 3⟩ (Epoch + 6) [] (by decide)

/-- C6: construction fails with the invalid-machine-identifier error exactly when `m < 0` or
`m > 1023 = MAX_MACHINE_ID`; it fails for `-1` and `1024`, succeeds for `0` and `1023`, and a
constructed generator carries `m`. -/
theorem C6_construction_bounds (m e : Int) :
    (newGenerator m e = .error .InvalidMachineIDError ↔ (m < 0 ∨ m > 1023)) ∧
      ((∃ g, newGenerator m e = .ok g ∧ g.machineID = m) ↔ ¬ (m < 0 ∨ m > 1023)) ∧
      MAX_MACHINE_ID = 1023 ∧
      newGenerator (-1) e = .error .InvalidMachineIDError ∧
      newGenerator 1024 e = .error .InvalidMachineIDError ∧
      (∃ g, newGenerator 0 e = .ok g ∧ g.machineID = 0) ∧
      (∃ g, newGenerator 1023 e = .ok g ∧ g.machineID = 1023) := by
  refine ⟨?_, ?_, MAX_MACHINE_ID_eq, rfl, rfl, ⟨_, rfl, rfl⟩, ⟨_, rfl, rfl⟩⟩
  · unfold newGenerator
    rw [MAX_MACHINE_ID_eq]
    split <;> simp_all
  · unfold newGenerator
    rw [MAX_MACHINE_ID_eq]
    split
    · simp_all
    · rename_i h
      simp only [h, not_false_eq_true, iff_true]
      exact ⟨_, rfl, rfl⟩

/-- C6 at `m = 5`. -/
theorem C6_construction_bounds_witness :
    ∃ g, newGenerator 5 Epoch = .ok g ∧ g.machineID = 5 :=
  (C6_construction_bounds 5 Epoch).2.1.mpr (by decide)

/-- C7, as stated, fails: at `now = epoch + 2 ^ 41` the identifier of machine 5 is negative and
`id >> 22` is `-2 ^ 41`, neither `now - epoch` nor a value of `[0, 2 ^ 41 - 1]`. -/
theorem C7_counterexample :
    ∃ g id g' rest, newGenerator 5 Epoch = .ok g ∧
      generate g [Epoch + 2 ^ 41] = some (id, g', rest) ∧
      timestampField id = -2 ^ 41 ∧
      ¬ (timestampField id = g'.lastTimestamp - g.epoch ∧
          0 ≤ timestampField id ∧ timestampField id ≤ 2 ^ 41 - 1) :=
  ⟨⟨5, Epoch, Epoch, 0⟩, _, _, _, rfl, rfl, by decide, by decide⟩

/-- C7, amended: for every identifier returned by a well-formed generator with machine
identifier `m`, `(id >> 12) & 1023 = m` and `id & 4095` is the sequence used, for every clock
reading; when `0 ≤ now - epoch < 2 ^ 41`, also `id >> 22 = now - epoch`, a value of
`[0, 2 ^ 41 - 1]`. -/
theorem C7_field_roundtrip (g g' : Generator) (clock rest : List Int) (id : Int) (hwf : g.WF)
    (h : generate g clock = some (id, g', rest)) :
    (machineField id : Int) = g.machineID ∧ (sequenceField id : Int) = g'.sequence ∧
      (0 ≤ g'.lastTimestamp - g.epoch → g'.lastTimestamp - g.epoch < 2 ^ 41 →
        timestampField id = g'.lastTimestamp - g.epoch ∧
          0 ≤ timestampField id ∧ timestampField id ≤ 2 ^ 41 - 1) := by
  obtain ⟨hwf', -, -, hid, -⟩ := generate_ok_wf hwf h
  obtain ⟨w1, w2, -, -⟩ := hwf
  obtain ⟨-, -, v3, v4⟩ := hwf'
  rw [MAX_SEQUENCE_eq] at v4
  rw [MAX_MACHINE_ID_eq] at w2
  obtain ⟨f1, f2⟩ := compose_fields g'.lastTimestamp g.epoch w1 w2 v3 v4
  rw [← hid] at f1 f2
  refine ⟨by rw [f1]; omega, by rw [f2]; omega, ?_⟩
  intro h0 h1
  have ht : timestampField id = g'.lastTimestamp - g.epoch := by
    rw [hid, compose_inRange h0 h1 w1 w2 v3 v4, Int.add_assoc]
    exact timestampField_eq (by omega) (by omega)
  rw [ht]
  omega

/-- C7, amended, at machine 5, second call within the millisecond `epoch + 3`. -/
theorem C7_field_roundtrip_witness :
    (machineField 12603393 : Int) = 5 ∧ (sequenceField 12603393 : Int) = 1 ∧
      timestampField 12603393 = 3 :=
  have h := C7_field_roundtrip ⟨5, Epoch, Epoch + 3, 0⟩ ⟨5, Epoch, Epoch + 3, 1⟩ [Epoch + 3] []
    12603393 (by decide) (by rfl)
  ⟨h.1, h.2.1, (h.2.2 (by decide) (by decide)).1⟩

/-- C9, as stated, fails: at `now = epoch + 2 ^ 41` the identifier of machine 0 is `-2 ^ 63`, and
at `now = epoch - 1` it is `-2 ^ 22`; bit 63 is set in both. -/
theorem C9_counterexample :
    ∃ g, newGenerator 0 Epoch = .ok g ∧
      generateN 1 g [Epoch + 2 ^ 41] = [-9223372036854775808] ∧
      (toBits (-9223372036854775808)).testBit 63 = true ∧
      generateN 1 g [Epoch - 1] = [-4194304] ∧
      (toBits (-4194304)).testBit 63 = true :=
  ⟨⟨0, Epoch, Epoch, 0⟩, rfl, rfl, by decide, rfl, by decide⟩

/-- C9, amended: for every identifier returned by a well-formed generator at a clock reading with
`0 ≤ now - epoch < 2 ^ 41`, bit 63 is 0 and the signed 64-bit value is non-negative. -/
theorem C9_sign_bit_in_window (g g' : Generator) (clock rest : List Int) (id : Int)
    (hwf : g.WF) (h : generate g clock = some (id, g', rest))
    (h0 : 0 ≤ g'.lastTimestamp - g.epoch) (h1 : g'.lastTimestamp - g.epoch < 2 ^ 41) :
    (toBits id).testBit 63 = false ∧ 0 ≤ id := by
  obtain ⟨hwf', -, -, hid, -⟩ := generate_ok_wf hwf h
  obtain ⟨w1, w2, -, -⟩ := hwf
  obtain ⟨-, -, v3, v4⟩ := hwf'
  rw [MAX_SEQUENCE_eq] at v4
  rw [MAX_MACHINE_ID_eq] at w2
  have hv := compose_inRange h0 h1 w1 w2 v3 v4
  rw [← hid] at hv
  have hnn : 0 ≤ id := by omega
  have hlt : id < 2 ^ 63 := by omega
  refine ⟨Nat.testBit_lt_two_pow ?_, hnn⟩
  rw [toBits_of_nonneg hnn (by omega)]
  omega

/-- C9, amended, at machine 1023 in the last millisecond of the window. -/
theorem C9_sign_bit_in_window_witness :
    (toBits 9223372036854771712).testBit 63 = false ∧ (0 : Int) ≤ 9223372036854771712 :=
  C9_sign_bit_in_window ⟨1023, Epoch, Epoch, 0⟩ ⟨1023, Epoch, Epoch + 2 ^ 41 - 1, 0⟩
    [Epoch + 2 ^ 41 - 1] [] 9223372036854771712 (by decide) (by rfl) (by decide) (by decide)

/-- C8, as stated, fails: from `lastTimestamp = epoch + 2 ^ 41 - 1` with the sequence exhausted,
the wait ends at the reading `epoch + 2 ^ 41` and the identifier returned then has timestamp
field `-2 ^ 41`, below the field `2 ^ 41 - 1` of the previous identifier. -/
theorem C8_counterexample :
    ∃ id g' rest,
      generate ⟨0, Epoch, Epoch + 2 ^ 41 - 1, 4095⟩ [Epoch + 2 ^ 41 - 1, Epoch + 2 ^ 41]
        = some (id, g', rest) ∧
      timestampField id = -2 ^ 41 ∧
      timestampField (compose (Epoch + 2 ^ 41 - 1) Epoch 0 4095) = 2 ^ 41 - 1 ∧
      ¬ (timestampField (compose (Epoch + 2 ^ 41 - 1) Epoch 0 4095) < timestampField id) :=
  ⟨_, _, _, rfl, by decide, by decide, by decide⟩

/-- C8, amended: for every well-formed generator with `sequence = 4095` and a reading equal to
`lastTimestamp`, `generate()` has no error result and does not return while no later reading
exceeds `lastTimestamp`; once one does, it returns, having skipped the readings before it, an
identifier with sequence field 0, whose timestamp field is strictly greater than that of the
previous identifier provided `epoch ≤ lastTimestamp` and that reading is below
`epoch + 2 ^ 41`. -/
theorem C8_sequence_rollover (g : Generator) (rest : List Int) (hwf : g.WF)
    (hseq : g.sequence = MAX_SEQUENCE) :
    ((∀ r ∈ rest, r ≤ g.lastTimestamp) → generate g (g.lastTimestamp :: rest) = none) ∧
      ((∃ r ∈ rest, g.lastTimestamp < r) →
        ∃ id g' skipped r rest',
          generate g (g.lastTimestamp :: rest) = some (id, g', rest') ∧
          rest = skipped ++ r :: rest' ∧ (∀ x ∈ skipped, x ≤ g.lastTimestamp) ∧
          g.lastTimestamp < r ∧ sequenceField id = 0 ∧
          (0 ≤ g.lastTimestamp - g.epoch → r - g.epoch < 2 ^ 41 →
            timestampField (compose g.lastTimestamp g.epoch g.machineID g.sequence)
              < timestampField id)) := by
  have hgen : generate g (g.lastTimestamp :: rest)
      = match waitNextMillis g.lastTimestamp rest with
        | none => none
        | some (now', rest') => emit g now' 0 rest' := by
    rw [generate, if_pos rfl, if_pos (by rw [hseq, MAX_SEQUENCE_eq]; rfl)]
  obtain ⟨w1, w2, w3, w4⟩ := hwf
  rw [MAX_SEQUENCE_eq] at w4 hseq
  rw [MAX_MACHINE_ID_eq] at w2
  refine ⟨?_, ?_⟩
  · intro hall
    rw [hgen]
    cases hw : waitNextMillis g.lastTimestamp rest with
    | none => rfl
    | some p =>
      have hs : (waitNextMillis g.lastTimestamp rest).isSome = true := by rw [hw]; rfl
      obtain ⟨r, hr, hlt⟩ := (waitNextMillis_isSome _ _).mp hs
      have := hall r hr
      omega
  · intro hex
    have hs := (waitNextMillis_isSome g.lastTimestamp rest).mpr hex
    cases hw : waitNextMillis g.lastTimestamp rest with
    | none => rw [hw] at hs; simp at hs
    | some p =>
      obtain ⟨r, rest'⟩ := p
      obtain ⟨sk, e, hsk, hr⟩ := waitNextMillis_some hw
      refine ⟨compose r g.epoch g.machineID 0,
        { g with lastTimestamp := r, sequence := 0 }, sk, r, rest', ?_, e, hsk, hr, ?_, ?_⟩
      · rw [hgen, hw]
        rfl
      · have := (compose_fields r g.epoch w1 w2 (le_refl 0)
          (by norm_num : (0 : Int) ≤ 4095)).2
        simpa using this
      · intro h0 h1
        rw [compose_inRange h0 (by omega) w1 w2 w3 w4,
          compose_inRange (by omega) h1 w1 w2 (le_refl 0) (by norm_num), Int.add_assoc,
          Int.add_assoc, timestampField_eq (by omega) (by omega),
          timestampField_eq (by omega) (by omega)]
        omega

/-- C8, amended, on a clock that stalls for two readings before it advances by three. -/
theorem C8_sequence_rollover_witness :
    generate ⟨5, Epoch, Epoch + 9, 4095⟩ [Epoch + 9, Epoch + 9, Epoch + 9, Epoch + 12, Epoch + 12]
        = some (50352128, ⟨5, Epoch, Epoch + 12, 0⟩, [Epoch + 12]) ∧
      sequenceField 50352128 = 0 ∧
      timestampField (compose (Epoch + 9) Epoch 5 4095) < timestampField 50352128 := by
  have h := (C8_sequence_rollover ⟨5, Epoch, Epoch + 9, 4095⟩
    [Epoch + 9, Epoch + 9, Epoch + 12, Epoch + 12] (by decide) (by decide)).2
    ⟨Epoch + 12, by decide, by decide⟩
  obtain ⟨id, g', sk, r, rest', h1, h2, -, -, h5, h8⟩ := h
  have e : generate ⟨5, Epoch, Epoch + 9, 4095⟩
      [Epoch + 9, Epoch + 9, Epoch + 9, Epoch + 12, Epoch + 12]
      = some (50352128, ⟨5, Epoch, Epoch + 12, 0⟩, [Epoch + 12]) := by rfl
  have h1' : generate ⟨5, Epoch, Epoch + 9, 4095⟩
      [Epoch + 9, Epoch + 9, Epoch + 9, Epoch + 12, Epoch + 12] = some (id, g', rest') := h1
  rw [e] at h1'
  simp only [Option.some.injEq, Prod.mk.injEq] at h1'
  obtain ⟨hid, -, hrest⟩ := h1'
  subst hid hrest
  have hr : r = Epoch + 12 := by
    have hlen := congrArg List.length h2
    simp only [List.length_cons, List.length_append, List.length_nil] at hlen
    have hsk : sk.length = 2 := by omega
    match sk, hsk with
    | [a, b], _ =>
      simp only [List.cons_append, List.nil_append, List.cons.injEq] at h2
      exact h2.2.2.1.symm
  exact ⟨e, h5, h8 (by decide) (by rw [hr]; decide)⟩

/-- Outcome of `main` in terms of the digits found in the effective pod name. -/
theorem main_eq (p : String) :
    main p =
      (if findString (if p = "" then "id-generator-1023" else p).toList = [] then
        .error .noNumericPart
      else if 2 ^ 63 - 1 <
          (digitsValue (findString (if p = "" then "id-generator-1023" else p).toList) : Int) then
        .error .invalidMachineID
      else if 1023 <
          (digitsValue (findString (if p = "" then "id-generator-1023" else p).toList) : Int) then
        .error (.nodeCreation .InvalidMachineIDError)
      else
        .ok ⟨digitsValue (findString (if p = "" then "id-generator-1023" else p).toList),
          Epoch, Epoch, 0⟩) := by
  unfold main
  simp only
  generalize (if p = "" then "id-generator-1023" else p).toList = s
  by_cases hne : findString s = []
  · simp [hne]
  · have hrun := findString_run hne
    obtain ⟨-, -, -, -, -, hd, -⟩ := hrun
    rw [if_neg hne, if_neg hne, atoi_digits hne hd]
    have h0 : (0 : Int) ≤ (digitsValue (findString s) : Int) := Int.ofNat_nonneg _
    by_cases hbig : 2 ^ 63 - 1 < (digitsValue (findString s) : Int)
    · rw [if_neg (by omega), if_pos hbig]
    · rw [if_pos (by omega), if_neg hbig]
      simp only [newGenerator, MAX_MACHINE_ID_eq]
      by_cases h1023 : 1023 < (digitsValue (findString s) : Int)
      · rw [if_pos (Or.inr h1023), if_pos h1023]
      · rw [if_neg (by omega), if_neg h1023]

/-- C10: with the empty `POD_NAME` replaced by `id-generator-1023`, startup constructs a generator
exactly when the name has a leftmost maximal run of decimal digits whose value is at most 1023;
the machine identifier is then that value (later runs are ignored, the default name gives 1023),
and otherwise startup aborts. -/
theorem C10_startup (p : String) :
    ((∃ g, main p = .ok g) ↔
        ∃ run, IsLeftmostDigitRun (if p = "" then "id-generator-1023" else p).toList run ∧
          decimalValue run ≤ 1023) ∧
      (∀ g run, main p = .ok g →
        IsLeftmostDigitRun (if p = "" then "id-generator-1023" else p).toList run →
          g.machineID = (decimalValue run : Int)) ∧
      ((¬ ∃ run, IsLeftmostDigitRun (if p = "" then "id-generator-1023" else p).toList run ∧
          decimalValue run ≤ 1023) → ∃ e, main p = .error e) ∧
      (∃ g, main "" = .ok g ∧ g.machineID = 1023) ∧
      (∃ g, main "ab12cd34" = .ok g ∧ g.machineID = 12) := by
  have hiff : (∃ g, main p = .ok g) ↔
      ∃ run, IsLeftmostDigitRun (if p = "" then "id-generator-1023" else p).toList run ∧
        decimalValue run ≤ 1023 := by
    rw [main_eq]
    generalize (if p = "" then "id-generator-1023" else p).toList = s
    constructor
    · rintro ⟨g, hg⟩
      split_ifs at hg with h1 h2 h3
      refine ⟨findString s, findString_run h1, ?_⟩
      rw [← digitsValue_eq_decimalValue]
      omega
    · rintro ⟨run, hrun, hv⟩
      have hf := findString_of_run hrun
      obtain ⟨-, -, -, -, hne, -, -⟩ := hrun
      rw [← digitsValue_eq_decimalValue] at hv
      rw [hf, if_neg hne, if_neg (by omega), if_neg (by omega)]
      exact ⟨_, rfl⟩
  refine ⟨hiff, ?_, ?_, ⟨_, rfl, rfl⟩, ⟨_, rfl, rfl⟩⟩
  · intro g run hg hrun
    rw [main_eq] at hg
    have hf := findString_of_run hrun
    rw [hf] at hg
    split_ifs at hg
    simp only [Except.ok.injEq] at hg
    rw [← hg, digitsValue_eq_decimalValue]
  · intro hnot
    cases hm : main p with
    | error e => exact ⟨e, rfl⟩
    | ok g => exact absurd (hiff.mp ⟨g, hm⟩) hnot

/-- C10 at a pod name with two digit runs. -/
theorem C10_startup_witness :
    IsLeftmostDigitRun "id-generator-7-of-12".toList ['7'] ∧ decimalValue ['7'] = 7 ∧
      ∃ g, main "id-generator-7-of-12" = .ok g ∧ g.machineID = 7 := by
  have hrun : IsLeftmostDigitRun
      (if "id-generator-7-of-12" = "" then "id-generator-1023" else "id-generator-7-of-12").toList
      ['7'] :=
    ⟨"id-generator-".toList, "-of-12".toList, by decide, by decide, by decide, by decide,
      by decide⟩
  have h := C10_startup "id-generator-7-of-12"
  obtain ⟨g, hg⟩ := h.1.mpr ⟨['7'], hrun, by decide⟩
  have hm := h.2.1 g ['7'] hg hrun
  exact ⟨hrun, by decide, g, hg, by simpa [decimalValue] using hm⟩

end IdGenerator
